import Mathlib

/-!
Verification development for a libvirt instance-metadata HTTP service
(src/handlers/__init__.py).  The service resolves the caller address to a
Machine, matches the request path against an ordered route table of
anchored regular expressions, and runs the bound handler.  The route
patterns use only literals, the classes [^\/]+ and \d+ and [^/]+, the
optional slash /? and literal capture groups; each repetition class
excludes the slash character that always delimits it in the table, so
greedy maximal munch is equivalent to full regex backtracking on every
pattern of the table, and the matcher below uses maximal munch.
-/

namespace LibvirtApi

/-- Machine record as supplied by the external resolver (utils.machine_resolver):
read-only accessors for identity fields and the ordered key table, an
ordered mapping from key name to an ordered mapping from format name to
key material. -/
structure Machine where
  instance_id : String
  hostname : String
  local_hostname : String
  instance_type : String
  local_ipv4 : String
  public_ipv4 : String
  placement_availability_zone : String
  user_data : String
  keys : List (String × List (String × String))

/-- Handler classes of src/handlers/__init__.py. -/
inductive Handler where
  | apiRoot
  | null
  | apiVersionRoot
  | metadata
  | instanceId
  | instanceType
  | hostname
  | localHostname
  | localIpv4
  | publicIpv4
  | placementAZ
  | publicKeys
  | userData
deriving DecidableEq, Repr

/-- Elements of the restricted regex grammar used by the route patterns:
a literal, the non-capturing class [^\/]+, the capture groups
(?P<number>\d+) and (?P<key_format>[^/]+), a literal capture group, and
the optional slash /?. -/
inductive RElem where
  | lit (s : String)
  | seg
  | capDigits
  | capSeg
  | capLit (s : String)
  | optSlash
deriving DecidableEq, Repr

/-- Outcome of one request: a 200 body, a 404 for an unmatched path, the
surfaced machine-not-found condition, or an uncontrolled Python
exception (HTTP 500). -/
inductive Outcome where
  | ok (body : String)
  | notFound
  | machineNotFound
  | fault (exc : String)
deriving DecidableEq, Repr

/-- Match a literal against the front of the input, returning the rest. -/
def litMatch : List Char → List Char → Option (List Char)
  | [], cs => some cs
  | _ :: _, [] => none
  | p :: ps, c :: cs => if p = c then litMatch ps cs else none

/-- Anchored match of a pattern against the whole input, returning the
captured groups in order.  Repetition classes use maximal munch, which
coincides with regex backtracking for every pattern of the table (see
the header note). -/
def matchElems : List RElem → List Char → Option (List (List Char))
  | [], [] => some []
  | [], _ :: _ => none
  | .lit s :: rest, cs =>
    match litMatch s.toList cs with
    | some cs' => matchElems rest cs'
    | none => none
  | .capLit s :: rest, cs =>
    match litMatch s.toList cs with
    | some cs' => (matchElems rest cs').map (s.toList :: ·)
    | none => none
  | .optSlash :: rest, cs =>
    match cs with
    | '/' :: cs' =>
      match matchElems rest cs' with
      | some r => some r
      | none => matchElems rest cs
    | _ => matchElems rest cs
  | .seg :: rest, cs =>
    let pre := cs.takeWhile (fun c => c != '/')
    if pre = [] then none
    else matchElems rest (cs.dropWhile (fun c => c != '/'))
  | .capDigits :: rest, cs =>
    let pre := cs.takeWhile Char.isDigit
    if pre = [] then none
    else (matchElems rest (cs.dropWhile Char.isDigit)).map (pre :: ·)
  | .capSeg :: rest, cs =>
    let pre := cs.takeWhile (fun c => c != '/')
    if pre = [] then none
    else (matchElems rest (cs.dropWhile (fun c => c != '/'))).map (pre :: ·)

/-- One route table entry: the pattern text as tornado stores it before
appending the end anchor, its meaning in the restricted grammar, and the
bound handler. -/
def Route : Type := String × List RElem × Handler

/-- Dispatch: scan the table in registration order and use the first
entry whose pattern matches the full path, returning its handler and
the captured groups. -/
def firstMatch : List Route → List Char → Option (Handler × List (List Char))
  | [], _ => none
  | (_, pat, h) :: rest, cs =>
    match matchElems pat cs with
    | some caps => some (h, caps)
    | none => firstMatch rest cs

/-- The route table of src/handlers/__init__.py, in registration order. -/
def routes : List Route :=
  [ ("/", [.lit "/"], .apiRoot),
    ("/[^\\/]+", [.lit "/", .seg], .null),
    ("/[^\\/]+/", [.lit "/", .seg, .lit "/"], .apiVersionRoot),
    ("/[^\\/]+/meta-data", [.lit "/", .seg, .lit "/meta-data"], .null),
    ("/[^\\/]+/meta-data/", [.lit "/", .seg, .lit "/meta-data/"], .metadata),
    ("/[^\\/]+/meta-data/instance-id",
      [.lit "/", .seg, .lit "/meta-data/instance-id"], .instanceId),
    ("/[^\\/]+/meta-data/instance-type",
      [.lit "/", .seg, .lit "/meta-data/instance-type"], .instanceType),
    ("/[^\\/]+/meta-data/hostname",
      [.lit "/", .seg, .lit "/meta-data/hostname"], .hostname),
    ("/[^\\/]+/meta-data/local-hostname",
      [.lit "/", .seg, .lit "/meta-data/local-hostname"], .localHostname),
    ("/[^\\/]+/meta-data/local-ipv4",
      [.lit "/", .seg, .lit "/meta-data/local-ipv4"], .localIpv4),
    ("/[^\\/]+/meta-data/public-ipv4",
      [.lit "/", .seg, .lit "/meta-data/public-ipv4"], .publicIpv4),
    ("/[^\\/]+/meta-data/placement/?",
      [.lit "/", .seg, .lit "/meta-data/placement", .optSlash], .placementAZ),
    ("/[^\\/]+/meta-data/placement/(availability-zone)",
      [.lit "/", .seg, .lit "/meta-data/placement/", .capLit "availability-zone"],
      .placementAZ),
    ("/[^\\/]+/meta-data/public-keys/?",
      [.lit "/", .seg, .lit "/meta-data/public-keys", .optSlash], .publicKeys),
    ("/[^\\/]+/meta-data/public-keys/(?P<number>\\d+)/?",
      [.lit "/", .seg, .lit "/meta-data/public-keys/", .capDigits, .optSlash],
      .publicKeys),
    ("/[^\\/]+/meta-data/public-keys/(?P<number>\\d+)/(?P<key_format>[^/]+)",
      [.lit "/", .seg, .lit "/meta-data/public-keys/", .capDigits, .lit "/", .capSeg],
      .publicKeys),
    ("/[^\\/]+/user-data/?",
      [.lit "/", .seg, .lit "/user-data", .optSlash], .userData) ]

/-- Occurrence of sub at some position of the char list. -/
def containsSub (sub : List Char) : List Char → Bool
  | [] => sub.isEmpty
  | c :: cs => sub.isPrefixOf (c :: cs) || containsSub sub cs

/-- Substring test, the Python in operator on strings. -/
def strContains (p sub : String) : Bool := containsSub sub.toList p.toList

/-- Suffix test, the Python str.endswith. -/
def strEndsWith (p suf : String) : Bool := suf.toList.isSuffixOf p.toList

/-- Greedy capture of the group in the leaf regex ([^/]+/?)\??\$$ applied
to the chars u standing between /meta-data/ and the final anchor dollar
of a pattern text: one or more non-slash chars, an optional slash kept
in the group, then an optional question mark outside the group, which
together must consume all of u. -/
def leafGroup (u : List Char) : Option (List Char) :=
  let pre := u.takeWhile (fun c => c != '/')
  match u.dropWhile (fun c => c != '/') with
  | [] => if pre.isEmpty then none else some pre
  | _ :: rest =>
    if pre.isEmpty then none
    else if rest = [] || rest = ['?'] then some (pre ++ ['/']) else none

/-- The leaf extraction of MetadataHandler.get: re.search of the regex
/meta-data/([^/]+/?)\??\$$ over a pattern text, trying start positions
left to right; at a position the literal /meta-data/ must match, then
the capture and the optional elements, and the literal dollar must end
the text.  Returns the first capture found. -/
def searchLeaf : List Char → Option String
  | [] => none
  | c :: cs =>
    match litMatch "/meta-data/".toList (c :: cs) with
    | some tail =>
      match (if tail.getLast? = some '$' then leafGroup tail.dropLast else none) with
      | some g => some (String.mk g)
      | none => searchLeaf cs
    | none => searchLeaf cs

/-- Tornado appends the end anchor to every pattern that does not already
end with it. -/
def tornadoPattern (p : String) : String := if strEndsWith p "$" then p else p ++ "$"

/-- The listing computed by MetadataHandler.get: walk the URLSpec table
in registration order, keep the patterns that contain /meta-data/ and do
not end with /meta-data/$, and collect the captures of the leaf regex
search, skipping entries where the search finds nothing. -/
def metadataListing : List String :=
  routes.filterMap (fun r =>
    let p := tornadoPattern r.1
    if strContains p "/meta-data/" && !(strEndsWith p "/meta-data/$") then
      searchLeaf p.toList
    else none)

/-- Supported API versions listed by ApiRootHandler. -/
def versions : List String :=
  ["1.0", "2007-01-19", "2007-03-01", "2007-08-29", "2007-10-10", "2007-12-15",
   "2008-02-01", "2008-09-01", "2009-04-04", "2011-01-01", "2011-05-01",
   "2012-01-12", "latest"]

/-- API categories listed by ApiVersionRootHandler. -/
def apis : List String := ["meta-data", "user-data"]

/-- Numeric value of a digit string: the int() conversion applied to the
captured number group, which the \d+ class guarantees is all digits. -/
def digitsVal (ds : List Char) : Nat := ds.foldl (fun a c => 10 * a + (c.toNat - 48)) 0

/-- Run the get method of the bound handler on the resolved machine with
the captured path groups, in the order the groups appear in the
pattern. -/
def runHandler (m : Machine) : Handler → List (List Char) → Outcome
  | .apiRoot, _ => .ok (String.intercalate "\n" versions)
  | .null, _ => .ok ""
  | .apiVersionRoot, _ => .ok (String.intercalate "\n" apis)
  | .metadata, _ => .ok (String.intercalate "\n" metadataListing)
  | .instanceId, _ => .ok m.instance_id
  | .instanceType, _ => .ok m.instance_type
  | .hostname, _ => .ok m.hostname
  | .localHostname, _ => .ok m.local_hostname
  | .localIpv4, _ => .ok m.local_ipv4
  | .publicIpv4, _ => .ok m.public_ipv4
  | .placementAZ, caps =>
    match caps with
    | [w] =>
      if String.mk w = "availability-zone" then .ok m.placement_availability_zone
      else .ok "availability-zone"
    | _ => .ok "availability-zone"
  | .userData, _ => .ok m.user_data
  | .publicKeys, caps =>
    match caps with
    | [] =>
      .ok (String.intercalate "\n"
        (m.keys.enum.map (fun p => toString p.1 ++ "=" ++ p.2.1)))
    | [n] =>
      match (m.keys.map Prod.snd)[digitsVal n]? with
      | some key => .ok (String.intercalate "\n" (key.map Prod.fst))
      | none => .fault "IndexError"
    | [n, f] =>
      match (m.keys.map Prod.snd)[digitsVal n]? with
      | some key =>
        match key.lookup (String.mk f) with
        | some v => .ok v
        | none => .fault "KeyError"
      | none => .fault "IndexError"
    | _ => .fault "TypeError"

/-- Serve one request for an already resolved machine: match the path
against the table in registration order and run the first matching
entry. -/
def serve (m : Machine) (path : String) : Outcome :=
  match firstMatch routes path.toList with
  | some (h, caps) => runHandler m h caps
  | none => .notFound

/-- Full request handling.  Modelled from the spec for the part outside
src: the external machine resolver maps a source address to a Machine or
reports that none exists, and a failed resolution in
ApiBaseHandler.prepare is surfaced as the distinct caller-visible
MachineNotFound condition before any handler body runs. -/
def dispatch (resolve : String → Option Machine) (addr path : String) : Outcome :=
  match firstMatch routes path.toList with
  | some (h, caps) =>
    match resolve addr with
    | some m => runHandler m h caps
    | none => .machineNotFound
  | none => .notFound

/-- Tails of the route patterns after the leading slash and the version
segment, paired with the original pattern texts and handlers, in
registration order. -/
def tailRoutes : List Route :=
  [ ("/[^\\/]+", [], .null),
    ("/[^\\/]+/", [.lit "/"], .apiVersionRoot),
    ("/[^\\/]+/meta-data", [.lit "/meta-data"], .null),
    ("/[^\\/]+/meta-data/", [.lit "/meta-data/"], .metadata),
    ("/[^\\/]+/meta-data/instance-id", [.lit "/meta-data/instance-id"], .instanceId),
    ("/[^\\/]+/meta-data/instance-type", [.lit "/meta-data/instance-type"], .instanceType),
    ("/[^\\/]+/meta-data/hostname", [.lit "/meta-data/hostname"], .hostname),
    ("/[^\\/]+/meta-data/local-hostname", [.lit "/meta-data/local-hostname"], .localHostname),
    ("/[^\\/]+/meta-data/local-ipv4", [.lit "/meta-data/local-ipv4"], .localIpv4),
    ("/[^\\/]+/meta-data/public-ipv4", [.lit "/meta-data/public-ipv4"], .publicIpv4),
    ("/[^\\/]+/meta-data/placement/?", [.lit "/meta-data/placement", .optSlash], .placementAZ),
    ("/[^\\/]+/meta-data/placement/(availability-zone)",
      [.lit "/meta-data/placement/", .capLit "availability-zone"], .placementAZ),
    ("/[^\\/]+/meta-data/public-keys/?", [.lit "/meta-data/public-keys", .optSlash], .publicKeys),
    ("/[^\\/]+/meta-data/public-keys/(?P<number>\\d+)/?",
      [.lit "/meta-data/public-keys/", .capDigits, .optSlash], .publicKeys),
    ("/[^\\/]+/meta-data/public-keys/(?P<number>\\d+)/(?P<key_format>[^/]+)",
      [.lit "/meta-data/public-keys/", .capDigits, .lit "/", .capSeg], .publicKeys),
    ("/[^\\/]+/user-data/?", [.lit "/user-data", .optSlash], .userData) ]

/-- Dispatch outcome determined by the part of the path that follows the
version segment and its slash. -/
def tailDispatch (t : List Char) : Option (Handler × List (List Char)) :=
  firstMatch tailRoutes ('/' :: t)

/-- Selection among the two parameterised public-keys routes, determined
by the path part X that follows /meta-data/public-keys/. -/
def pkSel (X : List Char) : Option (Handler × List (List Char)) :=
  match matchElems [.capDigits, .optSlash] X with
  | some caps => some (.publicKeys, caps)
  | none =>
    match matchElems [.capDigits, .lit "/", .capSeg] X with
    | some caps => some (.publicKeys, caps)
    | none => none

/-- Chars following the first occurrence of /meta-data/ in a pattern
text, when there is one. -/
def afterMeta : List Char → Option (List Char)
  | [] => none
  | c :: cs =>
    match litMatch "/meta-data/".toList (c :: cs) with
    | some tail => some tail
    | none => afterMeta cs

/-- Listing algorithm as the claim words it: iterate the route table in
registration order, keep exactly the entries whose pattern lies under
the metadata category and is strictly deeper than the listing route
itself, and for each kept entry extract the path component directly
following meta-data/, stripped of regex and parameter syntax, with a
trailing slash preserved when the route matched one. -/
def listingPerClaim : List String :=
  routes.filterMap (fun r =>
    let p := tornadoPattern r.1
    if strContains p "/meta-data/" && !(strEndsWith p "/meta-data/$") then
      (afterMeta p.toList).map (fun rest =>
        let seg := rest.takeWhile (fun c => c != '/')
        let core := seg.filter (fun c => c != '$' && c != '?')
        if seg.length < rest.length then String.mk (core ++ ['/']) else String.mk core)
    else none)

/-- Listing algorithm as amended: iterate the route table in registration
order and keep only the entries under the metadata category, other than
the listing route, whose pattern tail directly after meta-data/ is a
single path component optionally followed by a slash and the regex tail;
deeper routes produce no entry.  The component is emitted with its
trailing slash preserved. -/
def listingOneLevel : List String :=
  routes.filterMap (fun r =>
    let p := tornadoPattern r.1
    if strContains p "/meta-data/" && !(strEndsWith p "/meta-data/$") then
      (afterMeta p.toList).bind (fun tail =>
        if tail.getLast? = some '$' then (leafGroup tail.dropLast).map String.mk
        else none)
    else none)

/-- Strict lexicographic order on char lists. -/
def lexLt : List Char → List Char → Bool
  | [], [] => false
  | [], _ :: _ => true
  | _ :: _, [] => false
  | a :: as, b :: bs => if a = b then lexLt as bs else decide (a < b)

/-- Nondecreasing lexicographic order test for a list of strings. -/
def alphaSorted : List String → Bool
  | [] => true
  | [_] => true
  | a :: b :: t => (lexLt a.toList b.toList || a == b) && alphaSorted (b :: t)

/-- Concrete machine used for witnesses and failing-input evaluations:
one key named id_rsa with two formats, inserted in that order. -/
def sampleMachine : Machine :=
  { instance_id := "i-00000001", hostname := "box", local_hostname := "box.local",
    instance_type := "m1.small", local_ipv4 := "192.168.122.10",
    public_ipv4 := "198.51.100.7", placement_availability_zone := "zone-a",
    user_data := "#cloud-config", keys :=
      [("id_rsa", [("openssh-key", "AAAAB3NzaC1yc2E"), ("fingerprint", "12:34")])] }

/-! Lemmas about the matcher and the dispatcher. -/

theorem matchElems_nil_ne (u : List Char) (h : u ≠ []) : matchElems [] u = none := by
  cases u with
  | nil => exact absurd rfl h
  | cons c cs => rfl

theorem matchElems_nil_app (a : List Char) (c : Char) (b : List Char) :
    matchElems [] (a ++ c :: b) = none := by
  cases a with
  | nil => rfl
  | cons x xs => rfl

theorem litMatch_self_app (a u : List Char) : litMatch a (a ++ u) = some u := by
  induction a with
  | nil => rfl
  | cons x xs ih => simp [litMatch, ih]

theorem lit_step (s : String) (rest : List RElem) (u cs : List Char)
    (h : litMatch s.toList cs = some u) :
    matchElems (.lit s :: rest) cs = matchElems rest u := by
  have h' : litMatch s.data cs = some u := h
  simp [matchElems, h']

theorem takeWhile_app (p : Char → Bool) (v : List Char) (c : Char) (t : List Char)
    (hv : ∀ x ∈ v, p x = true) (hc : p c = false) :
    (v ++ c :: t).takeWhile p = v := by
  induction v with
  | nil => simp [List.takeWhile, hc]
  | cons a v ih =>
    have ha : p a = true := hv a (List.mem_cons_self a v)
    simp only [List.cons_append, List.takeWhile, ha, List.cons.injEq, true_and]
    exact ih (fun x hx => hv x (List.mem_cons_of_mem a hx))

theorem dropWhile_app (p : Char → Bool) (v : List Char) (c : Char) (t : List Char)
    (hv : ∀ x ∈ v, p x = true) (hc : p c = false) :
    (v ++ c :: t).dropWhile p = c :: t := by
  induction v with
  | nil => simp [List.dropWhile, hc]
  | cons a v ih =>
    have ha : p a = true := hv a (List.mem_cons_self a v)
    simp only [List.cons_append, List.dropWhile, ha]
    exact ih (fun x hx => hv x (List.mem_cons_of_mem a hx))

theorem takeWhile_all (p : Char → Bool) (v : List Char) (hv : ∀ x ∈ v, p x = true) :
    v.takeWhile p = v := by
  induction v with
  | nil => rfl
  | cons a v ih =>
    have ha : p a = true := hv a (List.mem_cons_self a v)
    simp only [List.takeWhile, ha, List.cons.injEq, true_and]
    exact ih (fun x hx => hv x (List.mem_cons_of_mem a hx))

theorem dropWhile_all (p : Char → Bool) (v : List Char) (hv : ∀ x ∈ v, p x = true) :
    v.dropWhile p = [] := by
  induction v with
  | nil => rfl
  | cons a v ih =>
    have ha : p a = true := hv a (List.mem_cons_self a v)
    simp only [List.dropWhile, ha]
    exact ih (fun x hx => hv x (List.mem_cons_of_mem a hx))

theorem seg_step (rest : List RElem) (v t : List Char) (hv : v ≠ [])
    (hs : ∀ c ∈ v, c ≠ '/') :
    matchElems (.seg :: rest) (v ++ '/' :: t) = matchElems rest ('/' :: t) := by
  have h1 : (v ++ '/' :: t).takeWhile (fun c => c != '/') = v :=
    takeWhile_app _ v '/' t (fun x hx => by simpa using hs x hx) (by simp)
  have h2 : (v ++ '/' :: t).dropWhile (fun c => c != '/') = '/' :: t :=
    dropWhile_app _ v '/' t (fun x hx => by simpa using hs x hx) (by simp)
  simp [matchElems, h1, h2, hv]

theorem seg_last (v : List Char) (hv : v ≠ []) (hs : ∀ c ∈ v, c ≠ '/') :
    matchElems [RElem.seg] v = some [] := by
  have h1 : v.takeWhile (fun c => c != '/') = v :=
    takeWhile_all _ v (fun x hx => by simpa using hs x hx)
  have h2 : v.dropWhile (fun c => c != '/') = [] :=
    dropWhile_all _ v (fun x hx => by simpa using hs x hx)
  simp [matchElems, h1, h2, hv]

theorem capDigits_step (rest : List RElem) (ds t : List Char) (hds : ds ≠ [])
    (hdig : ∀ c ∈ ds, c.isDigit = true) :
    matchElems (.capDigits :: rest) (ds ++ '/' :: t) =
      (matchElems rest ('/' :: t)).map (ds :: ·) := by
  have h1 : (ds ++ '/' :: t).takeWhile Char.isDigit = ds :=
    takeWhile_app _ ds '/' t hdig (by decide)
  have h2 : (ds ++ '/' :: t).dropWhile Char.isDigit = '/' :: t :=
    dropWhile_app _ ds '/' t hdig (by decide)
  simp [matchElems, h1, h2, hds]

theorem capSeg_last (f : List Char) (hf : f ≠ []) (hs : ∀ c ∈ f, c ≠ '/') :
    matchElems [RElem.capSeg] f = some [f] := by
  have h1 : f.takeWhile (fun c => c != '/') = f :=
    takeWhile_all _ f (fun x hx => by simpa using hs x hx)
  have h2 : f.dropWhile (fun c => c != '/') = [] :=
    dropWhile_all _ f (fun x hx => by simpa using hs x hx)
  simp [matchElems, h1, h2, hf]

theorem firstMatch_cons_none {s : String} {pat : List RElem} {hd : Handler}
    {rs : List Route} {cs : List Char} (h : matchElems pat cs = none) :
    firstMatch ((s, pat, hd) :: rs) cs = firstMatch rs cs := by
  simp [firstMatch, h]

theorem firstMatch_cons_some {s : String} {pat : List RElem} {hd : Handler}
    {rs : List Route} {cs : List Char} {caps : List (List Char)}
    (h : matchElems pat cs = some caps) :
    firstMatch ((s, pat, hd) :: rs) cs = some (hd, caps) := by
  simp [firstMatch, h]

theorem firstMatch_cons_congr {s s₂ : String} {pat pat₂ : List RElem} {hd : Handler}
    {rs rs₂ : List Route} {cs cs₂ : List Char}
    (hpat : matchElems pat cs = matchElems pat₂ cs₂)
    (hrest : firstMatch rs cs = firstMatch rs₂ cs₂) :
    firstMatch ((s, pat, hd) :: rs) cs = firstMatch ((s₂, pat₂, hd) :: rs₂) cs₂ := by
  simp only [firstMatch, hpat, hrest]

/-- Path of the shape /version with a nonempty slash-free version token:
the table selects the bare version presence probe. -/
theorem version_bare (v : List Char) (hv : v ≠ []) (hs : ∀ c ∈ v, c ≠ '/') :
    firstMatch routes ('/' :: v) = some (.null, []) := by
  have l0 : litMatch "/".toList ('/' :: v) = some v := litMatch_self_app "/".toList v
  have e0 : matchElems [RElem.lit "/"] ('/' :: v) = none := by
    rw [lit_step _ _ _ _ l0]; exact matchElems_nil_ne v hv
  have e1 : matchElems [RElem.lit "/", RElem.seg] ('/' :: v) = some [] := by
    rw [lit_step _ _ _ _ l0]; exact seg_last v hv hs
  simp only [routes]
  rw [firstMatch_cons_none e0, firstMatch_cons_some e1]

/-- Path of the shape /version/tail with a nonempty slash-free version
token: dispatch is determined by the tail alone. -/
theorem version_step (v t : List Char) (hv : v ≠ []) (hs : ∀ c ∈ v, c ≠ '/') :
    firstMatch routes ('/' :: (v ++ '/' :: t)) = tailDispatch t := by
  have l0 : litMatch "/".toList ('/' :: (v ++ '/' :: t)) = some (v ++ '/' :: t) :=
    litMatch_self_app "/".toList (v ++ '/' :: t)
  have e0 : matchElems [RElem.lit "/"] ('/' :: (v ++ '/' :: t)) = none := by
    rw [lit_step _ _ _ _ l0]; exact matchElems_nil_app v '/' t
  have eseg : ∀ rest : List RElem,
      matchElems (RElem.lit "/" :: RElem.seg :: rest) ('/' :: (v ++ '/' :: t)) =
        matchElems rest ('/' :: t) := fun rest => by
    rw [lit_step _ _ _ _ l0]; exact seg_step rest v t hv hs
  simp only [routes, tailDispatch, tailRoutes]
  rw [firstMatch_cons_none e0]
  refine firstMatch_cons_congr (eseg _) ?_
  refine firstMatch_cons_congr (eseg _) ?_
  refine firstMatch_cons_congr (eseg _) ?_
  refine firstMatch_cons_congr (eseg _) ?_
  refine firstMatch_cons_congr (eseg _) ?_
  refine firstMatch_cons_congr (eseg _) ?_
  refine firstMatch_cons_congr (eseg _) ?_
  refine firstMatch_cons_congr (eseg _) ?_
  refine firstMatch_cons_congr (eseg _) ?_
  refine firstMatch_cons_congr (eseg _) ?_
  refine firstMatch_cons_congr (eseg _) ?_
  refine firstMatch_cons_congr (eseg _) ?_
  refine firstMatch_cons_congr (eseg _) ?_
  refine firstMatch_cons_congr (eseg _) ?_
  refine firstMatch_cons_congr (eseg _) ?_
  refine firstMatch_cons_congr (eseg _) ?_
  rfl

/-- Dispatch below /version/meta-data/public-keys/ is decided by the two
parameterised public-keys routes alone. -/
theorem pk_tail (X : List Char) (hX : X ≠ []) :
    tailDispatch ("meta-data/public-keys/".toList ++ X) = pkSel X := by
  cases X with
  | nil => exact absurd rfl hX
  | cons c cs => rfl

theorem serve_mk (m : Machine) (cs : List Char) :
    serve m (String.mk cs) =
      (match firstMatch routes cs with
       | some (h, caps) => runHandler m h caps
       | none => .notFound) := rfl

theorem dispatch_mk (resolve : String → Option Machine) (addr : String) (cs : List Char) :
    dispatch resolve addr (String.mk cs) =
      (match firstMatch routes cs with
       | some (h, caps) =>
         (match resolve addr with
          | some m => runHandler m h caps
          | none => Outcome.machineNotFound)
       | none => Outcome.notFound) := rfl

/-! The claims. -/

/-- C1: the code lets an out-of-range public-key index raise an
uncontrolled IndexError fault: for every machine and every requested
index at least the key count, the describe and the fetch request both
evaluate to the fault outcome, which is not the not-found-class outcome
the claim requires. -/
theorem claim1_key_index_fault (m : Machine) (v ds f : List Char)
    (hv : v ≠ []) (hs : ∀ c ∈ v, c ≠ '/')
    (hds : ds ≠ []) (hdig : ∀ c ∈ ds, c.isDigit = true)
    (hf : f ≠ []) (hfs : ∀ c ∈ f, c ≠ '/')
    (hge : m.keys.length ≤ digitsVal ds) :
    serve m (String.mk ('/' :: (v ++ '/' ::
        ("meta-data/public-keys/".toList ++ (ds ++ ['/']))))) = .fault "IndexError" ∧
    serve m (String.mk ('/' :: (v ++ '/' ::
        ("meta-data/public-keys/".toList ++ (ds ++ '/' :: f))))) = .fault "IndexError" ∧
    Outcome.fault "IndexError" ≠ Outcome.notFound := by
  have hnone : (m.keys.map Prod.snd)[digitsVal ds]? = none :=
    List.getElem?_eq_none (by rw [List.length_map]; exact hge)
  refine ⟨?_, ?_, by simp⟩
  · rw [serve_mk, version_step v _ hv hs, pk_tail _ (by simp)]
    have hps : pkSel (ds ++ ['/']) = some (.publicKeys, [ds]) := by
      unfold pkSel
      rw [capDigits_step [RElem.optSlash] ds [] hds hdig]
      rfl
    rw [hps]
    show (match (m.keys.map Prod.snd)[digitsVal ds]? with
      | some key => Outcome.ok (String.intercalate "\n" (key.map Prod.fst))
      | none => Outcome.fault "IndexError") = _
    rw [hnone]
  · rw [serve_mk, version_step v _ hv hs, pk_tail _ (by simp)]
    have h1 : matchElems [RElem.capDigits, RElem.optSlash] (ds ++ '/' :: f) = none := by
      rw [capDigits_step [RElem.optSlash] ds f hds hdig]
      simp [matchElems, matchElems_nil_ne f hf]
    have h2 : pkSel (ds ++ '/' :: f) = some (.publicKeys, [ds, f]) := by
      unfold pkSel
      rw [h1, capDigits_step [RElem.lit "/", RElem.capSeg] ds f hds hdig]
      rw [lit_step "/" [RElem.capSeg] f ('/' :: f) (litMatch_self_app "/".toList f)]
      rw [capSeg_last f hf hfs]
      rfl
    rw [h2]
    show (match (m.keys.map Prod.snd)[digitsVal ds]? with
      | some key =>
        (match key.lookup (String.mk f) with
         | some v => Outcome.ok v
         | none => Outcome.fault "KeyError")
      | none => Outcome.fault "IndexError") = _
    rw [hnone]

theorem claim1_witness :
    serve sampleMachine "/latest/meta-data/public-keys/5/" = .fault "IndexError" ∧
    serve sampleMachine "/latest/meta-data/public-keys/5/openssh-key" = .fault "IndexError" := by
  have h := claim1_key_index_fault sampleMachine "latest".toList "5".toList "openssh-key".toList
    (by decide) (by decide) (by decide) (by decide) (by decide) (by decide) (by decide)
  exact ⟨h.1, h.2.1⟩

/-- C2 counterexample: the listing algorithm exactly as the claim words
it keeps the three deeper metadata routes and produces eleven leaf
names, while the listing the code computes has eight; the two disagree
on the registered table. -/
theorem claim2_cex :
    listingPerClaim ≠ metadataListing ∧
    listingPerClaim.length = 11 ∧ metadataListing.length = 8 := by decide

/-- C2 amended: the listing at /version/meta-data/ is the route table
filtered, in registration order, to the entries under the metadata
category, other than the listing route itself, whose pattern tail after
meta-data/ is a single path component optionally followed by a slash;
routes nested deeper produce no entry; each kept component is emitted
with its trailing slash preserved, one per line, in registration order,
which is not alphabetically sorted. -/
theorem claim2_listing_amended (m : Machine) (v : List Char) (hv : v ≠ [])
    (hs : ∀ c ∈ v, c ≠ '/') :
    serve m (String.mk ('/' :: (v ++ '/' :: "meta-data/".toList))) =
      .ok (String.intercalate "\n" metadataListing) ∧
    metadataListing = listingOneLevel ∧
    metadataListing =
      ["instance-id", "instance-type", "hostname", "local-hostname",
       "local-ipv4", "public-ipv4", "placement/", "public-keys/"] ∧
    alphaSorted metadataListing = false := by
  refine ⟨?_, by decide, by decide, by decide⟩
  rw [serve_mk, version_step v _ hv hs]
  rfl

theorem claim2_amended_witness :
    serve sampleMachine "/latest/meta-data/" =
      .ok "instance-id\ninstance-type\nhostname\nlocal-hostname\nlocal-ipv4\npublic-ipv4\nplacement/\npublic-keys/" ∧
    alphaSorted metadataListing = false := by
  have h := claim2_listing_amended sampleMachine "latest".toList (by decide) (by decide)
  exact ⟨h.1.trans (by decide), h.2.2.2⟩

/-- C3: the public-keys protocol: the listing returns one line per key of
the shape index=name with the zero-based position of the key in the
ordered key table; a describe request for an in-range index returns the
format names of the key at that ordinal position, one per line in
insertion order; and a fetch request returns the raw key material of
that index and format pair verbatim. -/
theorem claim3_public_keys_protocol (m : Machine) (v ds f : List Char)
    (hv : v ≠ []) (hs : ∀ c ∈ v, c ≠ '/')
    (hds : ds ≠ []) (hdig : ∀ c ∈ ds, c.isDigit = true)
    (hf : f ≠ []) (hfs : ∀ c ∈ f, c ≠ '/') :
    serve m (String.mk ('/' :: (v ++ '/' :: "meta-data/public-keys/".toList))) =
      .ok (String.intercalate "\n"
        (m.keys.enum.map (fun p => toString p.1 ++ "=" ++ p.2.1))) ∧
    ∀ nm fmts, m.keys[digitsVal ds]? = some (nm, fmts) →
      serve m (String.mk ('/' :: (v ++ '/' ::
          ("meta-data/public-keys/".toList ++ (ds ++ ['/']))))) =
        .ok (String.intercalate "\n" (fmts.map Prod.fst)) ∧
      ∀ mat, fmts.lookup (String.mk f) = some mat →
        serve m (String.mk ('/' :: (v ++ '/' ::
            ("meta-data/public-keys/".toList ++ (ds ++ '/' :: f))))) = .ok mat := by
  refine ⟨?_, fun nm fmts hkv => ⟨?_, fun mat hmat => ?_⟩⟩
  · rw [serve_mk, version_step v _ hv hs]
    rfl
  · rw [serve_mk, version_step v _ hv hs, pk_tail _ (by simp)]
    have hps : pkSel (ds ++ ['/']) = some (.publicKeys, [ds]) := by
      unfold pkSel
      rw [capDigits_step [RElem.optSlash] ds [] hds hdig]
      rfl
    rw [hps]
    show (match (m.keys.map Prod.snd)[digitsVal ds]? with
      | some key => Outcome.ok (String.intercalate "\n" (key.map Prod.fst))
      | none => Outcome.fault "IndexError") = _
    rw [List.getElem?_map, hkv]
    rfl
  · rw [serve_mk, version_step v _ hv hs, pk_tail _ (by simp)]
    have h1 : matchElems [RElem.capDigits, RElem.optSlash] (ds ++ '/' :: f) = none := by
      rw [capDigits_step [RElem.optSlash] ds f hds hdig]
      simp [matchElems, matchElems_nil_ne f hf]
    have h2 : pkSel (ds ++ '/' :: f) = some (.publicKeys, [ds, f]) := by
      unfold pkSel
      rw [h1, capDigits_step [RElem.lit "/", RElem.capSeg] ds f hds hdig]
      rw [lit_step "/" [RElem.capSeg] f ('/' :: f) (litMatch_self_app "/".toList f)]
      rw [capSeg_last f hf hfs]
      rfl
    rw [h2]
    show (match (m.keys.map Prod.snd)[digitsVal ds]? with
      | some key =>
        (match key.lookup (String.mk f) with
         | some v => Outcome.ok v
         | none => Outcome.fault "KeyError")
      | none => Outcome.fault "IndexError") = _
    rw [List.getElem?_map, hkv]
    show (match fmts.lookup (String.mk f) with
      | some v => Outcome.ok v
      | none => Outcome.fault "KeyError") = _
    rw [hmat]

theorem claim3_witness :
    serve sampleMachine "/latest/meta-data/public-keys/" = .ok "0=id_rsa" ∧
    serve sampleMachine "/latest/meta-data/public-keys/0/" = .ok "openssh-key\nfingerprint" ∧
    serve sampleMachine "/latest/meta-data/public-keys/0/openssh-key" = .ok "AAAAB3NzaC1yc2E" := by
  have h := claim3_public_keys_protocol sampleMachine "latest".toList "0".toList
    "openssh-key".toList (by decide) (by decide) (by decide) (by decide) (by decide) (by decide)
  have h2 := h.2 "id_rsa" [("openssh-key", "AAAAB3NzaC1yc2E"), ("fingerprint", "12:34")]
    (by decide)
  exact ⟨h.1.trans (by decide), h2.1.trans (by decide), h2.2 "AAAAB3NzaC1yc2E" (by decide)⟩

/-- C4: when the resolver has no record for the caller address, every
routed path yields the distinct machineNotFound outcome, which differs
from every successful response, including a successful response with an
empty body. -/
theorem claim4_machine_not_found (resolve : String → Option Machine) (addr : String)
    (hr : resolve addr = none) (path : String)
    (hm : (firstMatch routes path.toList).isSome = true) :
    dispatch resolve addr path = .machineNotFound ∧
    ∀ s, Outcome.machineNotFound ≠ Outcome.ok s := by
  constructor
  · obtain ⟨⟨h, caps⟩, hfm⟩ := Option.isSome_iff_exists.mp hm
    unfold dispatch
    rw [hfm, hr]
  · intro s h
    exact Outcome.noConfusion h

theorem claim4_witness :
    dispatch (fun _ => none) "203.0.113.9" "/latest/meta-data/instance-id" = .machineNotFound ∧
    dispatch (fun _ => none) "203.0.113.9" "/latest/user-data/" = .machineNotFound := by
  exact ⟨(claim4_machine_not_found (fun _ => none) "203.0.113.9" rfl
      "/latest/meta-data/instance-id" (by decide)).1,
    (claim4_machine_not_found (fun _ => none) "203.0.113.9" rfl
      "/latest/user-data/" (by decide)).1⟩

/-- C5 counterexample: in the registered table the literal
availability-zone route stands at index 12 and the catch-all placement
route at index 11, so the literal route does not precede the catch-all,
contrary to the ordering the claim asserts. -/
theorem claim5_cex :
    (routes.map Prod.fst).indexOf "/[^\\/]+/meta-data/placement/(availability-zone)" = 12 ∧
    (routes.map Prod.fst).indexOf "/[^\\/]+/meta-data/placement/?" = 11 ∧
    ¬ ((routes.map Prod.fst).indexOf "/[^\\/]+/meta-data/placement/(availability-zone)" <
       (routes.map Prod.fst).indexOf "/[^\\/]+/meta-data/placement/?") := by decide

/-- C5 amended: dispatch uses only the first route-table entry whose
pattern matches the full request path, in registration order; the
catch-all placement route precedes the literal availability-zone route
in the registered table, but patterns must match the full path, so the
catch-all never matches the availability-zone path; that path therefore
reaches the availability-zone route and is handled as the
availability-zone leaf, not shadowed by the catch-all. -/
theorem claim5_order_amended (m : Machine) (v : List Char) (hv : v ≠ [])
    (hs : ∀ c ∈ v, c ≠ '/') :
    matchElems [RElem.lit "/", RElem.seg, RElem.lit "/meta-data/placement", RElem.optSlash]
      ('/' :: (v ++ '/' :: "meta-data/placement/availability-zone".toList)) = none ∧
    firstMatch routes ('/' :: (v ++ '/' :: "meta-data/placement/availability-zone".toList)) =
      some (.placementAZ, ["availability-zone".toList]) ∧
    serve m (String.mk ('/' :: (v ++ '/' :: "meta-data/placement/availability-zone".toList))) =
      .ok m.placement_availability_zone := by
  refine ⟨?_, ?_, ?_⟩
  · rw [lit_step "/" [RElem.seg, RElem.lit "/meta-data/placement", RElem.optSlash]
        (v ++ '/' :: "meta-data/placement/availability-zone".toList)
        ('/' :: (v ++ '/' :: "meta-data/placement/availability-zone".toList))
        (litMatch_self_app "/".toList _)]
    rw [seg_step _ v _ hv hs]
    rfl
  · rw [version_step v _ hv hs]
    rfl
  · rw [serve_mk, version_step v _ hv hs]
    rfl

theorem claim5_witness :
    serve sampleMachine "/latest/meta-data/placement/availability-zone" = .ok "zone-a" := by
  have h := claim5_order_amended sampleMachine "latest".toList (by decide) (by decide)
  exact h.2.2.trans (by decide)

/-- C6: the bare placement listing returns the literal string
availability-zone while the availability-zone leaf returns the actual
zone of the machine, and the two bodies differ whenever the zone is not
literally that string. -/
theorem claim6_placement (m : Machine) (v : List Char) (hv : v ≠ [])
    (hs : ∀ c ∈ v, c ≠ '/') :
    serve m (String.mk ('/' :: (v ++ '/' :: "meta-data/placement/".toList))) =
      .ok "availability-zone" ∧
    serve m (String.mk ('/' :: (v ++ '/' :: "meta-data/placement/availability-zone".toList))) =
      .ok m.placement_availability_zone ∧
    (m.placement_availability_zone ≠ "availability-zone" →
      serve m (String.mk ('/' :: (v ++ '/' :: "meta-data/placement/availability-zone".toList))) ≠
        serve m (String.mk ('/' :: (v ++ '/' :: "meta-data/placement/".toList)))) := by
  have h1 : serve m (String.mk ('/' :: (v ++ '/' :: "meta-data/placement/".toList))) =
      .ok "availability-zone" := by
    rw [serve_mk, version_step v _ hv hs]
    rfl
  have h2 : serve m
      (String.mk ('/' :: (v ++ '/' :: "meta-data/placement/availability-zone".toList))) =
      .ok m.placement_availability_zone := by
    rw [serve_mk, version_step v _ hv hs]
    rfl
  refine ⟨h1, h2, fun hne h => hne ?_⟩
  rw [h1, h2] at h
  exact Outcome.ok.inj h

theorem claim6_witness :
    serve sampleMachine "/latest/meta-data/placement/" = .ok "availability-zone" ∧
    serve sampleMachine "/latest/meta-data/placement/availability-zone" = .ok "zone-a" ∧
    serve sampleMachine "/latest/meta-data/placement/availability-zone" ≠
      serve sampleMachine "/latest/meta-data/placement/" := by
  have h := claim6_placement sampleMachine "latest".toList (by decide) (by decide)
  exact ⟨h.1, h.2.1.trans (by decide), h.2.2 (by decide)⟩

/-- C7: the version token is never validated: any nonempty slash-free
token, also one outside the published version list, makes the bare
version path and the meta-data presence probe return a success with an
empty body. -/
theorem claim7_version_not_validated (m : Machine) (v : List Char) (hv : v ≠ [])
    (hs : ∀ c ∈ v, c ≠ '/') :
    serve m (String.mk ('/' :: v)) = .ok "" ∧
    serve m (String.mk ('/' :: (v ++ '/' :: "meta-data".toList))) = .ok "" := by
  constructor
  · rw [serve_mk, version_bare v hv hs]
    rfl
  · rw [serve_mk, version_step v _ hv hs]
    rfl

theorem claim7_witness :
    serve sampleMachine "/9999-99-99" = .ok "" ∧
    serve sampleMachine "/9999-99-99/meta-data" = .ok "" ∧
    serve sampleMachine "/latest" = .ok "" ∧
    serve sampleMachine "/latest/meta-data" = .ok "" := by
  have h1 := claim7_version_not_validated sampleMachine "9999-99-99".toList
    (by decide) (by decide)
  have h2 := claim7_version_not_validated sampleMachine "latest".toList (by decide) (by decide)
  exact ⟨h1.1, h1.2, h2.1, h2.2⟩

/-- C8: the root path returns exactly the published version list,
newline-joined, in its registration order. -/
theorem claim8_version_list (m : Machine) :
    serve m "/" =
      .ok "1.0\n2007-01-19\n2007-03-01\n2007-08-29\n2007-10-10\n2007-12-15\n2008-02-01\n2008-09-01\n2009-04-04\n2011-01-01\n2011-05-01\n2012-01-12\nlatest" := rfl

/-- C9: the category listing at /version/ returns exactly the two lines
meta-data and user-data, newline-joined, for every version token. -/
theorem claim9_category_listing (m : Machine) (v : List Char) (hv : v ≠ [])
    (hs : ∀ c ∈ v, c ≠ '/') :
    serve m (String.mk ('/' :: (v ++ '/' :: []))) = .ok "meta-data\nuser-data" := by
  rw [serve_mk, version_step v [] hv hs]
  rfl

theorem claim9_witness :
    serve sampleMachine "/latest/" = .ok "meta-data\nuser-data" :=
  claim9_category_listing sampleMachine "latest".toList (by decide) (by decide)

/-- C10: every registered route resolves the caller address before
producing any body, so an unresolvable source address prevents even the
machine-independent routes, the version-list root, the presence probes
and the category listings, from returning any successful body. -/
theorem claim10_resolver_first (resolve : String → Option Machine) (addr : String)
    (hr : resolve addr = none) :
    dispatch resolve addr "/" = .machineNotFound ∧
    (∀ v : List Char, v ≠ [] → (∀ c ∈ v, c ≠ '/') →
      dispatch resolve addr (String.mk ('/' :: v)) = .machineNotFound ∧
      dispatch resolve addr (String.mk ('/' :: (v ++ '/' :: []))) = .machineNotFound ∧
      dispatch resolve addr (String.mk ('/' :: (v ++ '/' :: "meta-data".toList))) =
        .machineNotFound ∧
      dispatch resolve addr (String.mk ('/' :: (v ++ '/' :: "meta-data/".toList))) =
        .machineNotFound) ∧
    ∀ path body, dispatch resolve addr path ≠ .ok body := by
  refine ⟨?_, fun v hv hs => ⟨?_, ?_, ?_, ?_⟩, ?_⟩
  · have hroot : firstMatch routes "/".toList = some (Handler.apiRoot, []) := rfl
    unfold dispatch
    rw [hroot, hr]
  · rw [dispatch_mk, version_bare v hv hs, hr]
  · rw [dispatch_mk, version_step v [] hv hs, hr]
    rfl
  · rw [dispatch_mk, version_step v _ hv hs, hr]
    rfl
  · rw [dispatch_mk, version_step v _ hv hs, hr]
    rfl
  · intro path body h
    unfold dispatch at h
    cases hfm : firstMatch routes path.toList with
    | none =>
      rw [hfm] at h
      exact Outcome.noConfusion h
    | some pr =>
      obtain ⟨hd, caps⟩ := pr
      rw [hfm, hr] at h
      exact Outcome.noConfusion h

theorem claim10_witness :
    dispatch (fun _ => none) "198.51.100.1" "/" = .machineNotFound ∧
    dispatch (fun _ => none) "198.51.100.1" "/latest" = .machineNotFound ∧
    dispatch (fun _ => none) "198.51.100.1" "/latest/" = .machineNotFound ∧
    dispatch (fun _ => none) "198.51.100.1" "/latest/meta-data" = .machineNotFound := by
  have h := claim10_resolver_first (fun _ => none) "198.51.100.1" rfl
  have hv := h.2.1 "latest".toList (by decide) (by decide)
  exact ⟨h.1, hv.1, hv.2.1, hv.2.2.1⟩

end LibvirtApi
